import Mathlib

/-
Shallow embedding of the `cln` repository (yhakbar/cln), a git-clone
accelerator backed by a content-addressed object store and hard links.

The embedding follows `src/cln/src/lib.rs` (the authoritative library
implementation; `src/src/main.rs` is an older synchronous copy of the same
logic).  Modelling conventions:

* Hashes, paths and file contents are `String`s; `Path::join` is modelled as
  string concatenation with `/` (all paths handled by the program are
  relative and non-empty).
* The filesystem and the object store are explicit state (`St`): the store is
  an association list keyed by hash, target directories are a list of paths,
  target files map a path to the store hash they were hard-linked from
  (hard-link sharing makes the store key the file's identity).
* git subprocess invocations are an oracle (`Backend`); each completed
  invocation bumps a counter `gitCalls` in the state.  A `none` oracle answer
  models a spawn failure; an answer carries the exit status and stdout.
  Note that `TreeRow::write_to_store` and `Treevarsable::ls_tree` in the
  source read `.stdout` without ever testing the exit status; the embedding
  mirrors that faithfully (the `success` field is bound but unused there).
* `expect`-style panics are a distinct outcome (`ParseOutcome.panic`,
  `Fail.panicked`), separate from the `Error` enum values the library
  returns.
* The async walker in the source awaits its per-row futures sequentially
  (plain `.await` in a loop, no spawning), so the walk itself is faithfully
  sequential.  Rayon's `par_bridge()` used in `LsRemote::new` and
  `Tree::new` does NOT preserve row order when collecting; `lsRemoteRows` is
  the order-preserving (sequential) pipeline and `lsRemoteRun` is the set of
  collectable row vectors: the permutations of that pipeline's result.
* Walk recursion in the source is on dynamically fetched trees, so the
  embedding uses explicit fuel; fuel exhaustion is a distinct outcome that
  never counts as success.
* `io::Error` payloads inside error variants are elided.
-/

namespace Cln

/-! ## String utilities (Rust `split_whitespace`, `lines`, `trim_end`) -/

/-- Whitespace recognised by the splitting utilities (git output only
contains spaces and tabs inside lines). -/
def isWsChar (c : Char) : Bool :=
  c = ' ' || c = '\t' || c = '\n' || c = '\r'

def splitWsAux : List Char → List Char → List String
  | [], [] => []
  | [], acc => [String.mk acc.reverse]
  | c :: cs, acc =>
    if c = ' ' || c = '\t' then
      match acc with
      | [] => splitWsAux cs []
      | _ => String.mk acc.reverse :: splitWsAux cs []
    else splitWsAux cs (c :: acc)

/-- Rust `str::split_whitespace`: split on runs of whitespace, no empty
items. -/
def splitWs (s : String) : List String :=
  splitWsAux s.toList []

/-- Rust `Vec::join(" ")` on the remaining fields. -/
def joinSpace : List String → String
  | [] => ""
  | [s] => s
  | s :: rest => s ++ " " ++ joinSpace rest

def linesAux : List Char → List Char → List String
  | [], [] => []
  | [], acc => [String.mk acc.reverse]
  | '\n' :: cs, acc => String.mk acc.reverse :: linesAux cs []
  | c :: cs, acc => linesAux cs (c :: acc)

/-- Rust `str::lines` (inputs here are already `trim_end`ed, so there is no
trailing newline; carriage returns do not occur in git plumbing output). -/
def linesOf (s : String) : List String :=
  linesAux s.toList []

/-- Rust `str::trim_end`. -/
def trimEnd (s : String) : String :=
  String.mk (s.toList.reverse.dropWhile isWsChar).reverse

/-! ## Error enum (from `src/cln/src/lib.rs`, payloads elided) -/

inductive Error where
  | TempDirError
  | TempDirCloseError
  | CommandSpawnError
  | GitCloneError
  | Utf8Error
  | CreateDirError
  | HomeDirError
  | NoMatchingReferenceError
  | WriteToStoreError
  | CreateDirAllError
  | HardLinkError
  | ReadTreeError
  | ParseModeError
  deriving DecidableEq

/-- Outcome of a parsing constructor that uses `.expect(...)` in the source:
either a value or a process-aborting panic with the `expect` message. -/
inductive ParseOutcome (α : Type) where
  | ok (a : α)
  | panic (msg : String)
  deriving DecidableEq

def ParseOutcome.toOption : ParseOutcome α → Option α
  | .ok a => some a
  | .panic _ => none

/-! ## Reference resolution (`LsRemoteRow`, `LsRemote`) -/

structure LsRemoteRow where
  hash : String
  name : String
  deriving DecidableEq

/-- `LsRemoteRow::new`: first whitespace field is the hash (`expect` panic if
absent), the rest re-joined with single spaces is the ref name. -/
def LsRemoteRow.new (row : String) : ParseOutcome LsRemoteRow :=
  match splitWs row with
  | [] => .panic "Failed to find hash in LsRemoteRow"
  | h :: rest => .ok ⟨h, joinSpace rest⟩

/-- The filter in `LsRemote::new`: name equals the reference verbatim, or
`refs/tags/<reference>`, or `refs/heads/<reference>`. -/
def matchesRef (reference name : String) : Bool :=
  name = reference || name = "refs/tags/" ++ reference
    || name = "refs/heads/" ++ reference

/-- Order-preserving denotation of `LsRemote::new`: parse every line (a
panicking line aborts the whole construction, hence `Option`), keep the
matching rows in input order. -/
def lsRemoteRows (input reference : String) : Option (List LsRemoteRow) :=
  (List.mapM (fun l => (LsRemoteRow.new l).toOption) (linesOf input)).map
    (List.filter (fun r => matchesRef reference r.name))

/-- A possible row vector collected by `LsRemote::new`.  The source pipes the
rows through rayon's `par_bridge()`, which does not preserve order when
collecting into a `Vec`, so a run may observe any permutation of the
order-preserving result (the identity permutation being the single-threaded
schedule). -/
def lsRemoteRun (input reference : String) (rows : List LsRemoteRow) : Prop :=
  ∃ seq, lsRemoteRows input reference = some seq ∧ rows.Perm seq

/-- `LsRemote::get_hash`: error on empty rows, else the first row's hash. -/
def getHash : List LsRemoteRow → Except Error String
  | [] => .error .NoMatchingReferenceError
  | r :: _ => .ok r.hash

/-! ## Tree rows (`TreeRow`, `Tree`) -/

structure TreeRow where
  mode : String
  otype : String
  name : String
  path : String
  deriving DecidableEq

/-- `TreeRow::new`: mode, otype and hash are the first three whitespace
fields (each `expect`-panics when missing), the path is the remaining fields
re-joined with single spaces. -/
def TreeRow.new (row : String) : ParseOutcome TreeRow :=
  match splitWs row with
  | [] => .panic "Failed to find mode in TreeRow"
  | [_] => .panic "Failed to find otype in TreeRow"
  | [_, _] => .panic "Failed to find name in TreeRow"
  | mode :: otype :: name :: rest => .ok ⟨mode, otype, name, joinSpace rest⟩

structure Tree where
  rows : List TreeRow
  path : String
  deriving DecidableEq

/-- `Tree::new` (row order modelled sequentially; the source's `par_bridge`
may permute the row vector, which no property below depends on). -/
def Tree.new (text path : String) : Option Tree :=
  (List.mapM (fun l => (TreeRow.new l).toOption) (linesOf text)).map
    (fun rows => ⟨rows, path⟩)

/-! ## Filesystem / store state -/

/-- One file of the object store: its byte content, and the permission bits
set on it by `TreeRow::write_to_store` (`none` for tree-listing text, which
is written without an explicit permission step). -/
structure StoreEntry where
  content : String
  mode : Option Nat
  deriving DecidableEq

/-- Explicit state: object store (association list keyed by hash, newest
first), created target directories, target files (path ↦ store hash the file
is hard-linked to), and the number of completed git subprocess
invocations. -/
structure St where
  store : List (String × StoreEntry)
  dirs : List String
  files : List (String × String)
  gitCalls : Nat
  deriving DecidableEq

def lookupStore : List (String × StoreEntry) → String → Option StoreEntry
  | [], _ => none
  | (k, v) :: rest, h => if k = h then some v else lookupStore rest h

def dirMem : List String → String → Bool
  | [], _ => false
  | d :: ds, x => if d = x then true else dirMem ds x

def hasKey : List (String × String) → String → Bool
  | [], _ => false
  | (k, _) :: rest, p => if k = p then true else hasKey rest p

def addDir (st : St) (d : String) : St :=
  { st with dirs := d :: st.dirs }

def addFile (st : St) (p h : String) : St :=
  { st with files := (p, h) :: st.files }

def bumpGit (st : St) : St :=
  { st with gitCalls := st.gitCalls + 1 }

/-- `if !dir.exists() { create_dir_all(dir) }` (creation modelled as always
succeeding; an "already exists" race is tolerated by the source). -/
def ensureDir (st : St) (d : String) : St :=
  if dirMem st.dirs d then st else addDir st d

/-- `Path::join` on the relative, non-empty paths this program handles. -/
def pathJoin (a b : String) : String :=
  a ++ "/" ++ b

/-- Output of a completed git subprocess: exit status and stdout. -/
structure BackendOut where
  success : Bool
  stdout : String
  deriving DecidableEq

/-- The git subprocess oracle for a fetched repository context: `cat-file -p`
and `ls-tree` keyed by hash.  `none` models a spawn failure. -/
structure Backend where
  catFile : String → Option BackendOut
  lsTree : String → Option BackendOut

/-- How a stateful step ends in the source: a value, a returned `Error`, a
process panic, or (artefact of the fuel-based embedding of the unbounded
recursion) fuel exhaustion.  Every outcome carries the filesystem/store state
at that moment: real filesystem effects are not rolled back by an early
return. -/
inductive Fail where
  | err (e : Error)
  | panicked
  | outOfFuel
  deriving DecidableEq

inductive R (α : Type) where
  | ok (a : α) (st : St)
  | fail (f : Fail) (st : St)
  deriving DecidableEq

def R.state : R α → St
  | .ok _ st => st
  | .fail _ st => st

def R.isFailWith : R α → Fail → Bool
  | .fail g _, f => g == f
  | _, _ => false

/-- Growth of the observable filesystem facts the walkers test: store
entries, directory existence, file existence.  Every walker step only adds
to these, which is what makes re-running a walk a no-op. -/
structure Mono (s t : St) : Prop where
  store : ∀ h e, lookupStore s.store h = some e → lookupStore t.store h = some e
  dirs : ∀ d, dirMem s.dirs d = true → dirMem t.dirs d = true
  files : ∀ p, hasKey s.files p = true → hasKey t.files p = true

/-! ## Mode parsing (`self.mode.parse()` and its permission application) -/

/-- Digit-string value in the given base. -/
def digitsVal (base : Nat) : List Char → Nat → Nat
  | [], acc => acc
  | c :: cs, acc => digitsVal base cs (acc * base + (c.toNat - 48))

/-- Rust `str::parse::<u32>()` as invoked on the mode field: base-10, all
characters must be decimal digits, value bounded by `u32`. -/
def parseModeDecimal (s : String) : Option Nat :=
  let cs := s.toList
  if !cs.isEmpty && cs.all Char.isDigit
      && decide (digitsVal 10 cs 0 < 4294967296) then
    some (digitsVal 10 cs 0)
  else none

/-- `Permissions::set_readonly(true)` after `from_mode`: clear the three
write bits (octal 222 = 146). -/
def applyReadonly (m : Nat) : Nat :=
  m - Nat.land m 146

/-- Base-8 interpretation of the mode string.  Modelled from the spec's
words ("An implementation must parse this string as base-8 before applying it
as a filesystem permission set"); this is the behaviour the spec requires,
stated for comparison with `parseModeDecimal`, which is what the source
does. -/
def specModeOctal (s : String) : Option Nat :=
  let cs := s.toList
  if !cs.isEmpty && cs.all (fun c => decide ('0' ≤ c) && decide (c ≤ '7')) then
    some (digitsVal 8 cs 0)
  else none

/-! ## Store operations and tree providers -/

/-- `TreeRow::write_to_store`: skip if the hash is already a store key;
otherwise run `git cat-file -p` (spawn failure → `CommandSpawnError`), write
its stdout under the hash — the exit status is never inspected — then parse
the row's mode string with `str::parse` (base 10!) and set the resulting
permission bits with the readonly bits forced. -/
def repoWriteToStore (b : Backend) (row : TreeRow) (st : St) : R Unit :=
  match lookupStore st.store row.name with
  | some _ => .ok () st
  | none =>
    match b.catFile row.name with
    | none => .fail (.err .CommandSpawnError) st
    | some out =>
      let st1 := bumpGit st
      let written := { st1 with store := (row.name, ⟨out.stdout, none⟩) :: st1.store }
      match parseModeDecimal row.mode with
      | none => .fail (.err .ParseModeError) written
      | some m =>
        .ok () { st1 with
          store := (row.name, ⟨out.stdout, some (applyReadonly m)⟩) :: st1.store }

/-- `Tree::from_hash` / `Tree::from_path`: read the text stored under the
hash (absence → `ReadTreeError`), `trim_end` it, and parse it with
`Tree::new` (panicking on a malformed row). -/
def treeFromHash (hash path : String) (st : St) : R Tree :=
  match lookupStore st.store hash with
  | none => .fail (.err .ReadTreeError) st
  | some e =>
    match Tree.new (trimEnd e.content) path with
    | none => .fail .panicked st
    | some t => .ok t st

/-- `Treevarsable::ls_tree` for a repository path: serve the parse of the
cached text when the hash is a store key (note: no `trim_end` on this read in
the source); otherwise run `git ls-tree` (spawn failure →
`CommandSpawnError`), trim its stdout — the exit status is never
inspected — persist it under the hash, and parse it. -/
def repoLsTree (b : Backend) (reference path : String) (st : St) : R Tree :=
  match lookupStore st.store reference with
  | some e =>
    match Tree.new e.content path with
    | none => .fail .panicked st
    | some t => .ok t st
  | none =>
    match b.lsTree reference with
    | none => .fail (.err .CommandSpawnError) st
    | some out =>
      let trimmed := trimEnd out.stdout
      let st1 := bumpGit st
      let st2 := { st1 with store := (reference, ⟨trimmed, none⟩) :: st1.store }
      match Tree.new trimmed path with
      | none => .fail .panicked st2
      | some t => .ok t st2

/-! ## The tree walkers (`Walkable for RepoPath` and `Walkable for Hash`)

Both `walk` implementations are textually identical: split the rows into
blob rows and tree rows (other kinds are silently ignored), then await the
blob steps in row order followed by the tree steps in row order, returning
the first error.  They differ only in the per-blob step (the repo walker
first runs `write_to_store`) and in the tree provider (`ls_tree` against the
repo vs `Tree::from_hash` against the store), so the walk skeleton is
defined once (`walkWith`) and instantiated twice, mirroring both impls. -/

def blobRows (t : Tree) : List TreeRow :=
  t.rows.filter (fun r => r.otype == "blob")

def treeRows (t : Tree) : List TreeRow :=
  t.rows.filter (fun r => r.otype == "tree")

/-- `<Hash as Walkable>::write_blob` (also the tail of the `RepoPath`
version): ensure the directory `target_path/tree.path` exists, skip when a
file already exists at the target path, otherwise hard-link the store file
for the row's hash to the target path (a missing store file makes the link
fail with `HardLinkError`). -/
def hashWriteBlob (tree : Tree) (row : TreeRow) (targetPath : String) (st : St) : R Unit :=
  let targetDir := pathJoin targetPath tree.path
  let st1 := ensureDir st targetDir
  let targetFile := pathJoin targetDir row.path
  if hasKey st1.files targetFile then .ok () st1
  else
    match lookupStore st1.store row.name with
    | none => .fail (.err .HardLinkError) st1
    | some _ => .ok () (addFile st1 targetFile row.name)

/-- `<RepoPath as Walkable>::write_blob`: `write_to_store` first, then the
same directory/link logic as the `Hash` version. -/
def repoWriteBlob (b : Backend) (tree : Tree) (row : TreeRow) (targetPath : String)
    (st : St) : R Unit :=
  match repoWriteToStore b row st with
  | .fail e s => .fail e s
  | .ok _ s => hashWriteBlob tree row targetPath s

/-- Await the blob steps in row order, stopping at the first error. -/
def foldBlobsWith (blobF : Tree → TreeRow → String → St → R Unit)
    (tree : Tree) (targetPath : String) : List TreeRow → St → R Unit
  | [], st => .ok () st
  | r :: rs, st =>
    match blobF tree r targetPath st with
    | .fail e s => .fail e s
    | .ok _ s => foldBlobsWith blobF tree targetPath rs s

/-- Await the tree steps in row order (`walk_tree`): compute the child base
path, obtain the child tree from the provider, recurse into the walk
continuation, stopping at the first error. -/
def walkTreesWith (treeSrc : String → String → St → R Tree)
    (walkF : Tree → String → St → R Unit)
    (treePath targetPath : String) : List TreeRow → St → R Unit
  | [], st => .ok () st
  | r :: rs, st =>
    match treeSrc r.name (pathJoin treePath r.path) st with
    | .fail e s => .fail e s
    | .ok t s =>
      match walkF t targetPath s with
      | .fail e s1 => .fail e s1
      | .ok _ s1 => walkTreesWith treeSrc walkF treePath targetPath rs s1

/-- `Walkable::walk`, fuel-indexed (the source recursion is on dynamically
fetched trees and would diverge on a cyclic store). -/
def walkWith (blobF : Tree → TreeRow → String → St → R Unit)
    (treeSrc : String → String → St → R Tree) : Nat → Tree → String → St → R Unit
  | 0 => fun _ _ st => .fail .outOfFuel st
  | fuel + 1 => fun tree targetPath st =>
    match foldBlobsWith blobF tree targetPath (blobRows tree) st with
    | .fail e s => .fail e s
    | .ok _ s =>
      walkTreesWith treeSrc (walkWith blobF treeSrc fuel) tree.path targetPath
        (treeRows tree) s

/-- `<Hash as Walkable>::walk`: blob steps link straight from the store,
subtrees come from `Tree::from_hash`, i.e. the store cache only. -/
def hashWalk : Nat → Tree → String → St → R Unit :=
  walkWith hashWriteBlob treeFromHash

/-- `<RepoPath as Walkable>::walk`: blob steps populate the store from the
backend first, subtrees come from `ls_tree` against the repo context. -/
def repoWalk (b : Backend) : Nat → Tree → String → St → R Unit :=
  walkWith (repoWriteBlob b) (repoLsTree b)

/-! ## The orchestrator (`cln`) -/

/-- Environment of one `cln` invocation: the backend for the fetched
workspace, the `git ls-remote` stdout (`none` = spawn failure), whether
tempdir creation, `git clone` and the final tempdir cleanup succeed, the
reference being resolved, the target directory, and the walk fuel. -/
structure Env where
  backend : Backend
  lsRemoteOut : Option String
  tempDirOk : Bool
  cloneOk : Bool
  cleanupOk : Bool
  reference : String
  targetDir : String
  fuel : Nat

/-- The cached path of `cln` (store hit): parse the tree from the store with
base path ".", create the target directory if absent, then walk with the
`Hash` walker.  No backend is in scope. -/
def cachedPath (hash targetDir : String) (fuel : Nat) (st : St) : R Unit :=
  match treeFromHash hash "." st with
  | .fail e s => .fail e s
  | .ok tree s => hashWalk fuel tree targetDir (ensureDir s targetDir)

/-- The fetch path of `cln` (store miss): create a tempdir, `git clone
--bare --depth 1` into it, `ls_tree` the resolved hash against it, create the
target directory if absent, walk with the `RepoPath` walker, then close the
tempdir — a cleanup failure is propagated with `?` as `TempDirCloseError`. -/
def fetchPath (env : Env) (hash : String) (st : St) : R Unit :=
  if !env.tempDirOk then .fail (.err .TempDirError) st
  else if !env.cloneOk then .fail (.err .GitCloneError) (bumpGit st)
  else
    match repoLsTree env.backend hash "." (bumpGit st) with
    | .fail e s => .fail e s
    | .ok tree s =>
      match repoWalk env.backend env.fuel tree env.targetDir (ensureDir s env.targetDir) with
      | .fail e s1 => .fail e s1
      | .ok _ s1 =>
        if env.cleanupOk then .ok () s1 else .fail (.err .TempDirCloseError) s1

/-- `cln`: run `git ls-remote` (spawn failure → `CommandSpawnError`), build
the match list, take its first hash (`NoMatchingReferenceError` when empty),
then branch on store membership of that hash. -/
def clnModel (env : Env) (st : St) : R Unit :=
  match env.lsRemoteOut with
  | none => .fail (.err .CommandSpawnError) st
  | some out =>
    let st1 := bumpGit st
    match lsRemoteRows (trimEnd out) env.reference with
    | none => .fail .panicked st1
    | some rows =>
      match getHash rows with
      | .error e => .fail (.err e) st1
      | .ok hash =>
        if (lookupStore st1.store hash).isSome then
          cachedPath hash env.targetDir env.fuel st1
        else fetchPath env hash st1

/-! ## Concrete fixtures (inputs for the evaluated instances below) -/

def rowV1 : LsRemoteRow := ⟨"aaaa", "v1"⟩

def rowTagV1 : LsRemoteRow := ⟨"bbbb", "refs/tags/v1"⟩

/-- A remote listing carrying the tag row before the verbatim row. -/
def lsListingTagFirst : String := "bbbb refs/tags/v1\naaaa v1"

/-- The same two rows with the verbatim row first. -/
def lsListingExactFirst : String := "aaaa v1\nbbbb refs/tags/v1"

def stEmpty : St := ⟨[], [], [], 0⟩

def wStore : St := ⟨[("h1", ⟨"old-bytes", none⟩)], [], [], 0⟩

/-- A backend whose answers differ from every cached store entry. -/
def wBackend : Backend :=
  ⟨fun _ => some ⟨true, "DIFFERENT"⟩, fun _ => some ⟨true, "DIFFERENT"⟩⟩

def wRow : TreeRow := ⟨"100644", "blob", "h1", "f"⟩

def idemStore : St := ⟨[("bhash", ⟨"hello", some 100644⟩)], [], [], 0⟩

def idemTree : Tree := ⟨[⟨"100644", "blob", "bhash", "f.txt"⟩], "."⟩

def idemSt1 : St :=
  ⟨[("bhash", ⟨"hello", some 100644⟩)], ["td/."], [("td/./f.txt", "bhash")], 0⟩

def noBackend : Backend := ⟨fun _ => none, fun _ => none⟩

def rowMode : TreeRow := ⟨"100644", "blob", "abc", "f"⟩

def bMode : Backend := ⟨fun _ => some ⟨true, "bytes"⟩, fun _ => none⟩

/-- A backend whose subprocesses exit non-zero with empty stdout. -/
def bFail : Backend := ⟨fun _ => some ⟨false, ""⟩, fun _ => some ⟨false, ""⟩⟩

def fetchBackend : Backend :=
  ⟨fun h => if h = "bbbb" then some ⟨true, "hello"⟩ else none,
   fun h => if h = "aaaa" then some ⟨true, "100644 blob bbbb f.txt"⟩ else none⟩

/-- A fetch-path environment in which everything succeeds except the final
tempdir cleanup. -/
def cleanupFailEnv : Env :=
  ⟨fetchBackend, some "aaaa\trefs/heads/main", true, true, false, "main", "td", 1⟩

/-- Filesystem/store state after `cleanupFailEnv`'s materialize finished
(ls-remote, clone, ls-tree and cat-file each bumped the counter). -/
def cleanupFailSt : St :=
  ⟨[("bbbb", ⟨"hello", some 100644⟩), ("aaaa", ⟨"100644 blob bbbb f.txt", none⟩)],
   ["td/.", "td"], [("td/./f.txt", "bbbb")], 4⟩

def fetchedTree : Tree := ⟨[⟨"100644", "blob", "bbbb", "f.txt"⟩], "."⟩

def fetchedSA : St := ⟨[("aaaa", ⟨"100644 blob bbbb f.txt", none⟩)], [], [], 2⟩

def fetchedSB : St :=
  ⟨[("bbbb", ⟨"hello", some 100644⟩), ("aaaa", ⟨"100644 blob bbbb f.txt", none⟩)],
   ["td/.", "td"], [("td/./f.txt", "bbbb")], 3⟩

def missRow : TreeRow := ⟨"040000", "tree", "missing", "sub"⟩

def missTree : Tree := ⟨[missRow], "."⟩

def missSt : St := ⟨[("root", ⟨"040000 tree missing sub", none⟩)], [], [], 0⟩

/-! ## Helper lemmas -/

theorem Mono.rfl (s : St) : Mono s s :=
  ⟨fun _ _ h => h, fun _ h => h, fun _ h => h⟩

theorem Mono.trans {a b c : St} (h1 : Mono a b) (h2 : Mono b c) : Mono a c :=
  ⟨fun k e hk => h2.store k e (h1.store k e hk),
   fun d hd => h2.dirs d (h1.dirs d hd),
   fun p hp => h2.files p (h1.files p hp)⟩

theorem dirMem_cons (d x : String) (ds : List String) (h : dirMem ds x = true) :
    dirMem (d :: ds) x = true := by
  simp only [dirMem]
  split <;> simp [h]

theorem dirMem_cons_self (d : String) (ds : List String) :
    dirMem (d :: ds) d = true := by
  simp [dirMem]

theorem hasKey_cons (k v x : String) (fs : List (String × String))
    (h : hasKey fs x = true) : hasKey ((k, v) :: fs) x = true := by
  simp only [hasKey]
  split <;> simp [h]

theorem hasKey_cons_self (k v : String) (fs : List (String × String)) :
    hasKey ((k, v) :: fs) k = true := by
  simp [hasKey]

theorem lookupStore_cons_of_ne {k h : String} (hne : ¬k = h) (v : StoreEntry)
    (l : List (String × StoreEntry)) :
    lookupStore ((k, v) :: l) h = lookupStore l h := by
  simp [lookupStore, hne]

theorem lookupStore_cons_self (k : String) (v : StoreEntry)
    (l : List (String × StoreEntry)) :
    lookupStore ((k, v) :: l) k = some v := by
  simp [lookupStore]

theorem mono_addDir (st : St) (d : String) : Mono st (addDir st d) :=
  ⟨fun _ _ h => h, fun x hx => dirMem_cons d x st.dirs hx, fun _ h => h⟩

theorem mono_addFile (st : St) (p h : String) : Mono st (addFile st p h) :=
  ⟨fun _ _ hk => hk, fun _ hd => hd, fun x hx => hasKey_cons p h x st.files hx⟩

theorem mono_ensureDir (st : St) (d : String) : Mono st (ensureDir st d) := by
  unfold ensureDir
  split
  · exact Mono.rfl st
  · exact mono_addDir st d

theorem ensureDir_mem (st : St) (d : String) :
    dirMem (ensureDir st d).dirs d = true := by
  unfold ensureDir
  split
  next h => exact h
  next h => exact dirMem_cons_self d st.dirs

theorem mono_storeCons (st : St) (k : String) (v : StoreEntry)
    (hk : lookupStore st.store k = none) :
    Mono st { st with store := (k, v) :: st.store } := by
  refine ⟨fun h e hl => ?_, fun _ h => h, fun _ h => h⟩
  have hne : ¬k = h := by
    intro heq
    rw [heq] at hk
    rw [hk] at hl
    exact Option.noConfusion hl
  simpa [lookupStore_cons_of_ne hne] using hl

theorem mono_bumpGit (st : St) : Mono st (bumpGit st) :=
  ⟨fun _ _ h => h, fun _ h => h, fun _ h => h⟩

theorem treeFromHash_state (hash path : String) (st : St) :
    (treeFromHash hash path st).state = st := by
  unfold treeFromHash
  split
  · rfl
  · split <;> rfl

theorem mono_treeFromHash (hash path : String) (st : St) :
    Mono st (treeFromHash hash path st).state := by
  rw [treeFromHash_state]
  exact Mono.rfl st

theorem mono_repoWriteToStore (b : Backend) (row : TreeRow) (st : St) :
    Mono st (repoWriteToStore b row st).state := by
  unfold repoWriteToStore
  split
  · exact Mono.rfl st
  next hmiss =>
    split
    · exact Mono.rfl st
    next out =>
      split
      · exact (mono_bumpGit st).trans (mono_storeCons (bumpGit st) row.name _ hmiss)
      · exact (mono_bumpGit st).trans (mono_storeCons (bumpGit st) row.name _ hmiss)

theorem mono_repoLsTree (b : Backend) (reference path : String) (st : St) :
    Mono st (repoLsTree b reference path st).state := by
  unfold repoLsTree
  split
  · split <;> exact Mono.rfl st
  next hmiss =>
    split
    · exact Mono.rfl st
    next out =>
      dsimp only
      split
      · exact (mono_bumpGit st).trans (mono_storeCons (bumpGit st) reference _ hmiss)
      · exact (mono_bumpGit st).trans (mono_storeCons (bumpGit st) reference _ hmiss)

theorem mono_hashWriteBlob (tree : Tree) (row : TreeRow) (targetPath : String) (st : St) :
    Mono st (hashWriteBlob tree row targetPath st).state := by
  unfold hashWriteBlob
  dsimp only
  split
  · exact mono_ensureDir st _
  · split
    · exact mono_ensureDir st _
    · exact (mono_ensureDir st _).trans (mono_addFile _ _ _)

theorem mono_repoWriteBlob (b : Backend) (tree : Tree) (row : TreeRow)
    (targetPath : String) (st : St) :
    Mono st (repoWriteBlob b tree row targetPath st).state := by
  unfold repoWriteBlob
  have h1 := mono_repoWriteToStore b row st
  split
  next e s heq => rw [heq] at h1; exact h1
  next a s heq =>
    rw [heq] at h1
    exact h1.trans (mono_hashWriteBlob tree row targetPath s)

theorem foldBlobsWith_rel (Q : St → St → Prop) (hrefl : ∀ s, Q s s)
    (htrans : ∀ a b c, Q a b → Q b c → Q a c)
    (blobF : Tree → TreeRow → String → St → R Unit)
    (hB : ∀ tree r tp st, Q st (blobF tree r tp st).state)
    (tree : Tree) (targetPath : String) :
    ∀ rows st, Q st (foldBlobsWith blobF tree targetPath rows st).state := by
  intro rows
  induction rows with
  | nil => intro st; exact hrefl st
  | cons r rs ih =>
    intro st
    simp only [foldBlobsWith]
    have h1 := hB tree r targetPath st
    split
    next e s heq => rw [heq] at h1; exact h1
    next a s heq =>
      rw [heq] at h1
      exact htrans _ _ _ h1 (ih s)

theorem walkTreesWith_rel (Q : St → St → Prop) (hrefl : ∀ s, Q s s)
    (htrans : ∀ a b c, Q a b → Q b c → Q a c)
    (treeSrc : String → String → St → R Tree)
    (walkF : Tree → String → St → R Unit)
    (hT : ∀ h p st, Q st (treeSrc h p st).state)
    (hW : ∀ t tp st, Q st (walkF t tp st).state)
    (treePath targetPath : String) :
    ∀ rows st, Q st (walkTreesWith treeSrc walkF treePath targetPath rows st).state := by
  intro rows
  induction rows with
  | nil => intro st; exact hrefl st
  | cons r rs ih =>
    intro st
    simp only [walkTreesWith]
    have h1 := hT r.name (pathJoin treePath r.path) st
    split
    next e s heq => rw [heq] at h1; exact h1
    next t s heq =>
      rw [heq] at h1
      have h2 := hW t targetPath s
      split
      next e s1 heq1 => rw [heq1] at h2; exact htrans _ _ _ h1 h2
      next a s1 heq1 =>
        rw [heq1] at h2
        exact htrans _ _ _ h1 (htrans _ _ _ h2 (ih s1))

theorem walkWith_rel (Q : St → St → Prop) (hrefl : ∀ s, Q s s)
    (htrans : ∀ a b c, Q a b → Q b c → Q a c)
    (blobF : Tree → TreeRow → String → St → R Unit)
    (treeSrc : String → String → St → R Tree)
    (hB : ∀ tree r tp st, Q st (blobF tree r tp st).state)
    (hT : ∀ h p st, Q st (treeSrc h p st).state) :
    ∀ fuel tree targetPath st,
      Q st (walkWith blobF treeSrc fuel tree targetPath st).state := by
  intro fuel
  induction fuel with
  | zero => intro tree tp st; exact hrefl st
  | succ fuel ih =>
    intro tree tp st
    simp only [walkWith]
    have h1 := foldBlobsWith_rel Q hrefl htrans blobF hB tree tp (blobRows tree) st
    split
    next e s heq => rw [heq] at h1; exact h1
    next a s heq =>
      rw [heq] at h1
      exact htrans _ _ _ h1
        (walkTreesWith_rel Q hrefl htrans treeSrc (walkWith blobF treeSrc fuel) hT
          (fun t tp1 st1 => ih t tp1 st1) tree.path tp (treeRows tree) s)

theorem mono_walkWith (blobF : Tree → TreeRow → String → St → R Unit)
    (treeSrc : String → String → St → R Tree)
    (hB : ∀ tree r tp st, Mono st (blobF tree r tp st).state)
    (hT : ∀ h p st, Mono st (treeSrc h p st).state)
    (fuel : Nat) (tree : Tree) (targetPath : String) (st : St) :
    Mono st (walkWith blobF treeSrc fuel tree targetPath st).state :=
  walkWith_rel Mono Mono.rfl (fun _ _ _ => Mono.trans) blobF treeSrc hB hT
    fuel tree targetPath st

theorem repoWriteToStore_post (b : Backend) (row : TreeRow) (st st1 : St)
    (h : repoWriteToStore b row st = .ok () st1) :
    ∃ e, lookupStore st1.store row.name = some e := by
  unfold repoWriteToStore at h
  split at h
  next e heq =>
    cases h
    exact ⟨e, heq⟩
  next =>
    split at h
    · exact R.noConfusion h
    next out =>
      split at h
      · exact R.noConfusion h
      next m hm =>
        cases h
        exact ⟨_, lookupStore_cons_self row.name _ _⟩

theorem repoWriteToStore_idem (b : Backend) (row : TreeRow) (st st1 st2 : St)
    (h : repoWriteToStore b row st = .ok () st1) (hm : Mono st1 st2) :
    repoWriteToStore b row st2 = .ok () st2 := by
  obtain ⟨e, he⟩ := repoWriteToStore_post b row st st1 h
  have h2 := hm.store row.name e he
  unfold repoWriteToStore
  rw [h2]

theorem hashWriteBlob_post (tree : Tree) (row : TreeRow) (targetPath : String)
    (st st1 : St) (h : hashWriteBlob tree row targetPath st = .ok () st1) :
    dirMem st1.dirs (pathJoin targetPath tree.path) = true
      ∧ hasKey st1.files (pathJoin (pathJoin targetPath tree.path) row.path) = true := by
  unfold hashWriteBlob at h
  dsimp only at h
  split at h
  next hk =>
    cases h
    exact ⟨ensureDir_mem st _, hk⟩
  next hk =>
    split at h
    · exact R.noConfusion h
    next e heq =>
      cases h
      refine ⟨ensureDir_mem st _, ?_⟩
      exact hasKey_cons_self _ _ _

theorem hashWriteBlob_idem (tree : Tree) (row : TreeRow) (targetPath : String)
    (st st1 st2 : St) (h : hashWriteBlob tree row targetPath st = .ok () st1)
    (hm : Mono st1 st2) :
    hashWriteBlob tree row targetPath st2 = .ok () st2 := by
  obtain ⟨hd, hf⟩ := hashWriteBlob_post tree row targetPath st st1 h
  have hd2 := hm.dirs _ hd
  have hf2 := hm.files _ hf
  unfold hashWriteBlob
  dsimp only
  rw [ensureDir, if_pos hd2, if_pos hf2]

theorem repoWriteBlob_idem (b : Backend) (tree : Tree) (row : TreeRow)
    (targetPath : String) (st st1 st2 : St)
    (h : repoWriteBlob b tree row targetPath st = .ok () st1) (hm : Mono st1 st2) :
    repoWriteBlob b tree row targetPath st2 = .ok () st2 := by
  unfold repoWriteBlob at h ⊢
  split at h
  · exact R.noConfusion h
  next a s heq =>
    have hmono : Mono s st1 := by
      have := mono_hashWriteBlob tree row targetPath s
      rw [h] at this
      exact this
    rw [repoWriteToStore_idem b row st s st2 heq (hmono.trans hm)]
    exact hashWriteBlob_idem tree row targetPath s st1 st2 h hm

theorem treeFromHash_idem (hash path : String) (st st1 st2 : St) (t : Tree)
    (h : treeFromHash hash path st = .ok t st1) (hm : Mono st1 st2) :
    treeFromHash hash path st2 = .ok t st2 := by
  unfold treeFromHash at h ⊢
  split at h
  · exact R.noConfusion h
  next e heq =>
    split at h
    · exact R.noConfusion h
    next t' heq2 =>
      cases h
      rw [hm.store hash e heq]
      dsimp only
      rw [heq2]

theorem repoLsTree_idem (b : Backend) (reference path : String) (st st1 st2 : St)
    (t : Tree) (h : repoLsTree b reference path st = .ok t st1) (hm : Mono st1 st2) :
    repoLsTree b reference path st2 = .ok t st2 := by
  unfold repoLsTree at h ⊢
  split at h
  next e heq =>
    split at h
    · exact R.noConfusion h
    next t' heq2 =>
      cases h
      rw [hm.store reference e heq]
      dsimp only
      rw [heq2]
  next hmiss =>
    split at h
    · exact R.noConfusion h
    next out hout =>
      dsimp only at h
      split at h
      · exact R.noConfusion h
      next t' heq2 =>
        cases h
        have h2 := hm.store reference ⟨trimEnd out.stdout, none⟩
          (lookupStore_cons_self reference _ _)
        rw [h2]
        dsimp only
        rw [heq2]

theorem foldBlobsWith_idem (blobF : Tree → TreeRow → String → St → R Unit)
    (hBm : ∀ tree r tp st, Mono st (blobF tree r tp st).state)
    (hBi : ∀ tree r tp st st1 st2, blobF tree r tp st = .ok () st1 → Mono st1 st2 →
      blobF tree r tp st2 = .ok () st2)
    (tree : Tree) (targetPath : String) :
    ∀ rows st st1 st2, foldBlobsWith blobF tree targetPath rows st = .ok () st1 →
      Mono st1 st2 → foldBlobsWith blobF tree targetPath rows st2 = .ok () st2 := by
  intro rows
  induction rows with
  | nil =>
    intro st st1 st2 h hm
    cases h
    rfl
  | cons r rs ih =>
    intro st st1 st2 h hm
    simp only [foldBlobsWith] at h ⊢
    split at h
    · exact R.noConfusion h
    next a s heq =>
      have hsA : Mono s st1 := by
        have := foldBlobsWith_rel Mono Mono.rfl (fun _ _ _ => Mono.trans) blobF hBm
          tree targetPath rs s
        rw [h] at this
        exact this
      rw [hBi tree r targetPath st s st2 heq (hsA.trans hm)]
      exact ih s st1 st2 h hm

theorem walkTreesWith_idem (treeSrc : String → String → St → R Tree)
    (walkF : Tree → String → St → R Unit)
    (hTm : ∀ h p st, Mono st (treeSrc h p st).state)
    (hWm : ∀ t tp st, Mono st (walkF t tp st).state)
    (hTi : ∀ h p st st1 st2 t, treeSrc h p st = .ok t st1 → Mono st1 st2 →
      treeSrc h p st2 = .ok t st2)
    (hWi : ∀ t tp st st1 st2, walkF t tp st = .ok () st1 → Mono st1 st2 →
      walkF t tp st2 = .ok () st2)
    (treePath targetPath : String) :
    ∀ rows st st1 st2,
      walkTreesWith treeSrc walkF treePath targetPath rows st = .ok () st1 →
      Mono st1 st2 →
      walkTreesWith treeSrc walkF treePath targetPath rows st2 = .ok () st2 := by
  intro rows
  induction rows with
  | nil =>
    intro st st1 st2 h hm
    cases h
    rfl
  | cons r rs ih =>
    intro st st1 st2 h hm
    simp only [walkTreesWith] at h ⊢
    split at h
    · exact R.noConfusion h
    next t s heq =>
      split at h
      · exact R.noConfusion h
      next a s1 heq1 =>
        cases a
        have hs1 : Mono s1 st1 := by
          have := walkTreesWith_rel Mono Mono.rfl (fun _ _ _ => Mono.trans) treeSrc
            walkF hTm hWm treePath targetPath rs s1
          rw [h] at this
          exact this
        have hs : Mono s s1 := by
          have := hWm t targetPath s
          rw [heq1] at this
          exact this
        rw [hTi r.name (pathJoin treePath r.path) st s st2 t heq
          ((hs.trans hs1).trans hm)]
        dsimp only
        rw [hWi t targetPath s s1 st2 heq1 (hs1.trans hm)]
        dsimp only
        exact ih s1 st1 st2 h hm

theorem walkWith_idem (blobF : Tree → TreeRow → String → St → R Unit)
    (treeSrc : String → String → St → R Tree)
    (hBm : ∀ tree r tp st, Mono st (blobF tree r tp st).state)
    (hTm : ∀ h p st, Mono st (treeSrc h p st).state)
    (hBi : ∀ tree r tp st st1 st2, blobF tree r tp st = .ok () st1 → Mono st1 st2 →
      blobF tree r tp st2 = .ok () st2)
    (hTi : ∀ h p st st1 st2 t, treeSrc h p st = .ok t st1 → Mono st1 st2 →
      treeSrc h p st2 = .ok t st2) :
    ∀ fuel tree targetPath st st1 st2,
      walkWith blobF treeSrc fuel tree targetPath st = .ok () st1 → Mono st1 st2 →
      walkWith blobF treeSrc fuel tree targetPath st2 = .ok () st2 := by
  intro fuel
  induction fuel with
  | zero =>
    intro tree tp st st1 st2 h hm
    exact R.noConfusion h
  | succ fuel ih =>
    intro tree tp st st1 st2 h hm
    simp only [walkWith] at h ⊢
    split at h
    · exact R.noConfusion h
    next a s heq =>
      have hsA : Mono s st1 := by
        have := walkTreesWith_rel Mono Mono.rfl (fun _ _ _ => Mono.trans) treeSrc
          (walkWith blobF treeSrc fuel)
          hTm (mono_walkWith blobF treeSrc hBm hTm fuel) tree.path tp (treeRows tree) s
        rw [h] at this
        exact this
      rw [foldBlobsWith_idem blobF hBm hBi tree tp (blobRows tree) st s st2 heq
        (hsA.trans hm)]
      exact walkTreesWith_idem treeSrc (walkWith blobF treeSrc fuel)
        hTm (mono_walkWith blobF treeSrc hBm hTm fuel)
        hTi (fun t tp1 sa sb sc ha hb => ih t tp1 sa sb sc ha hb)
        tree.path tp (treeRows tree) s st1 st2 h hm

theorem ensureDir_preserves (st : St) (d : String) :
    (ensureDir st d).gitCalls = st.gitCalls ∧ (ensureDir st d).store = st.store := by
  unfold ensureDir addDir
  split <;> simp

theorem hashWriteBlob_preserves (tree : Tree) (row : TreeRow) (targetPath : String)
    (st : St) :
    ((hashWriteBlob tree row targetPath st).state).gitCalls = st.gitCalls
    ∧ ((hashWriteBlob tree row targetPath st).state).store = st.store := by
  unfold hashWriteBlob
  dsimp only
  split
  next hk =>
    exact ⟨(ensureDir_preserves st _).1, (ensureDir_preserves st _).2⟩
  next hk =>
    split
    · exact ⟨(ensureDir_preserves st _).1, (ensureDir_preserves st _).2⟩
    · exact ⟨(ensureDir_preserves st _).1, (ensureDir_preserves st _).2⟩

theorem hashWalk_preserves (fuel : Nat) (tree : Tree) (targetPath : String) (st : St) :
    ((hashWalk fuel tree targetPath st).state).gitCalls = st.gitCalls
    ∧ ((hashWalk fuel tree targetPath st).state).store = st.store :=
  walkWith_rel (fun a b => b.gitCalls = a.gitCalls ∧ b.store = a.store)
    (fun _ => ⟨rfl, rfl⟩)
    (fun _ _ _ q1 q2 => ⟨q2.1.trans q1.1, q2.2.trans q1.2⟩)
    hashWriteBlob treeFromHash
    (fun tr r tp s => hashWriteBlob_preserves tr r tp s)
    (fun h p s => by rw [treeFromHash_state]; exact ⟨rfl, rfl⟩)
    fuel tree targetPath st

theorem hashWriteBlob_ok_of_present (tree : Tree) (r : TreeRow) (targetPath : String)
    (st : St) (h : (lookupStore st.store r.name).isSome = true) :
    ∃ s, hashWriteBlob tree r targetPath st = .ok () s
      ∧ s.store = st.store ∧ s.gitCalls = st.gitCalls := by
  unfold hashWriteBlob
  dsimp only
  split
  next hk =>
    exact ⟨_, rfl, (ensureDir_preserves st _).2, (ensureDir_preserves st _).1⟩
  next hk =>
    split
    next heq =>
      rw [(ensureDir_preserves st _).2] at heq
      rw [heq] at h
      exact Bool.noConfusion h
    next e heq =>
      refine ⟨_, rfl, ?_, ?_⟩
      · exact (ensureDir_preserves st _).2
      · exact (ensureDir_preserves st _).1

theorem foldHashBlobs_ok (tree : Tree) (targetPath : String) :
    ∀ rows st, (∀ x ∈ rows, (lookupStore st.store x.name).isSome = true) →
      ∃ s, foldBlobsWith hashWriteBlob tree targetPath rows st = .ok () s
        ∧ s.store = st.store ∧ s.gitCalls = st.gitCalls := by
  intro rows
  induction rows with
  | nil => intro st _; exact ⟨st, rfl, rfl, rfl⟩
  | cons r rs ih =>
    intro st hall
    obtain ⟨s, hs, hst, hg⟩ := hashWriteBlob_ok_of_present tree r targetPath st
      (hall r (List.mem_cons_self r rs))
    obtain ⟨s2, hs2, hst2, hg2⟩ := ih s (fun x hx => by
      rw [hst]; exact hall x (List.mem_cons_of_mem r hx))
    refine ⟨s2, ?_, hst2.trans hst, hg2.trans hg⟩
    simp only [foldBlobsWith]
    rw [hs]
    exact hs2

/-! ## Settled claims -/

/-- C1 counterexample: a listing that carries the `refs/tags/v1` row (hash
`bbbb`) before the verbatim `v1` row (hash `aaaa`).  The single-threaded
schedule (identity permutation) is one legal run of `LsRemote::new`, and on
it resolution returns `bbbb`, the tag row's hash — not the verbatim row's
`aaaa` — so an exact match does not outrank a tag match when it appears
later in the listing. -/
theorem lsRemote_priority_cex :
    lsRemoteRun lsListingTagFirst "v1" [rowTagV1, rowV1]
    ∧ rowV1.name = "v1" ∧ rowV1.hash = "aaaa"
    ∧ rowTagV1.name = "refs/tags/" ++ "v1" ∧ rowTagV1.hash = "bbbb"
    ∧ getHash [rowTagV1, rowV1] = .ok "bbbb"
    ∧ ¬(Except.ok "bbbb" : Except Error String) = .ok "aaaa" :=
  ⟨⟨[rowTagV1, rowV1], by decide, List.Perm.refl _⟩,
   by decide, by decide, by decide, by decide, rfl,
   fun h => absurd (Except.ok.inj h) (by decide)⟩

/-- C1 (amended): reference resolution returns the hash of the first row of
the processed match list — a row whose ref name equals the reference
verbatim, or `refs/tags/<reference>`, or `refs/heads/<reference>` — with no
priority between the three match forms; the verbatim row's hash is returned
exactly when that row comes first in the processed order (for example first
in the backend's listing order under order-preserving processing). -/
theorem lsRemote_first_match_hash (input reference : String) (r : LsRemoteRow)
    (rest : List LsRemoteRow)
    (h : lsRemoteRows input reference = some (r :: rest)) :
    getHash (r :: rest) = .ok r.hash ∧ matchesRef reference r.name = true := by
  refine ⟨rfl, ?_⟩
  unfold lsRemoteRows at h
  obtain ⟨parsed, hp, hf⟩ := Option.map_eq_some'.mp h
  have hmem : r ∈ List.filter (fun x => matchesRef reference x.name) parsed := by
    rw [hf]
    exact List.mem_cons_self r rest
  exact (List.mem_filter.mp hmem).2

theorem lsRemote_first_match_hash_witness :
    getHash [rowV1, rowTagV1] = .ok rowV1.hash
    ∧ matchesRef "v1" rowV1.name = true :=
  lsRemote_first_match_hash lsListingExactFirst "v1" rowV1 [rowTagV1] (by decide)

/-- C7 counterexample: for the fixed listing `lsListingTagFirst` and the
fixed reference `v1`, both the identity permutation and the swap are legal
collected row vectors of `LsRemote::new` (rayon's `par_bridge` preserves no
order), and the two runs resolve to different hashes — so two runs of the
resolver need not select the same hash. -/
theorem lsRemote_determinism_cex :
    lsRemoteRun lsListingTagFirst "v1" [rowTagV1, rowV1]
    ∧ lsRemoteRun lsListingTagFirst "v1" [rowV1, rowTagV1]
    ∧ getHash [rowTagV1, rowV1] = .ok "bbbb"
    ∧ getHash [rowV1, rowTagV1] = .ok "aaaa"
    ∧ ¬getHash [rowTagV1, rowV1] = getHash [rowV1, rowTagV1] :=
  ⟨⟨[rowTagV1, rowV1], by decide, List.Perm.refl _⟩,
   ⟨[rowTagV1, rowV1], by decide, List.Perm.swap rowTagV1 rowV1 []⟩,
   rfl, rfl,
   fun h => absurd (Except.ok.inj h) (by decide)⟩

/-- C7 (amended): what is deterministic about resolution is only that the
returned hash always belongs to some row of the match list — a row whose
name matches the reference verbatim, as a tag, or as a branch; which
matching row comes first in the collected vector depends on the parallel
bridge's scheduling, so run-to-run equality of the selected hash and
first-in-listing-order selection within a priority class are not
guaranteed when several rows match. -/
theorem lsRemote_run_sound (input reference hsh : String)
    (rows seq : List LsRemoteRow)
    (hseq : lsRemoteRows input reference = some seq) (hperm : rows.Perm seq)
    (hget : getHash rows = .ok hsh) :
    seq.any (fun x => x.hash == hsh && matchesRef reference x.name) = true := by
  cases rows with
  | nil => exact Except.noConfusion hget
  | cons r rest =>
    have hh : r.hash = hsh := by
      simpa [getHash] using hget
    have hmem : r ∈ seq := hperm.mem_iff.mp (List.mem_cons_self r rest)
    have hmatch : matchesRef reference r.name = true := by
      unfold lsRemoteRows at hseq
      obtain ⟨parsed, hp, hf⟩ := Option.map_eq_some'.mp hseq
      have : r ∈ List.filter (fun x => matchesRef reference x.name) parsed := by
        rw [hf]
        exact hmem
      exact (List.mem_filter.mp this).2
    rw [List.any_eq_true]
    refine ⟨r, hmem, ?_⟩
    rw [hh, hmatch]
    simp

theorem lsRemote_run_sound_witness :
    ([rowV1, rowTagV1] : List LsRemoteRow).Perm [rowTagV1, rowV1]
    ∧ getHash [rowV1, rowTagV1] = .ok "aaaa"
    ∧ List.any [rowTagV1, rowV1]
        (fun x => x.hash == "aaaa" && matchesRef "v1" x.name) = true :=
  ⟨by decide, rfl,
   lsRemote_run_sound lsListingTagFirst "v1" "aaaa" [rowV1, rowTagV1]
     [rowTagV1, rowV1] (by decide) (by decide) rfl⟩

/-- C8 counterexample: a tree-listing line with only two whitespace fields
(mode and kind but no hash) makes `TreeRow::new` abort through
`expect` — a process panic carrying the `expect` message — rather than
return a recoverable `MalformedTreeRowError` value (no such variant exists
in the library's error enum). -/
theorem treeRow_missing_field_panics :
    TreeRow.new "100644 blob" = .panic "Failed to find name in TreeRow" := by
  decide

/-- C8 (amended): a tree-listing line that lacks a mode, kind, or hash field
makes parsing panic (`expect`, a process abort, not a recoverable error
value — the error enum has no `MalformedTreeRowError`), while a well-formed
line yields mode, kind and hash from its first three whitespace fields and a
path equal to the remaining fields joined with single spaces. -/
theorem treeRow_parse_behavior (line : String) :
    (∀ mode otype hsh rest, splitWs line = mode :: otype :: hsh :: rest →
      TreeRow.new line = .ok ⟨mode, otype, hsh, joinSpace rest⟩)
    ∧ ((splitWs line).length < 3 → ∃ msg, TreeRow.new line = .panic msg) := by
  constructor
  · intro mode otype hsh rest hsp
    unfold TreeRow.new
    rw [hsp]
  · intro hlen
    unfold TreeRow.new
    rcases hsp : splitWs line with _ | ⟨a, _ | ⟨b, _ | ⟨c, tl⟩⟩⟩
    · exact ⟨_, rfl⟩
    · exact ⟨_, rfl⟩
    · exact ⟨_, rfl⟩
    · rw [hsp] at hlen
      simp only [List.length_cons] at hlen
      omega

theorem treeRow_parse_behavior_witness :
    splitWs "100644 blob abc my file.txt" = ["100644", "blob", "abc", "my", "file.txt"]
    ∧ TreeRow.new "100644 blob abc my file.txt"
        = .ok ⟨"100644", "blob", "abc", "my file.txt"⟩
    ∧ (splitWs "100644 blob").length < 3
    ∧ ∃ msg, TreeRow.new "100644 blob" = .panic msg :=
  ⟨by decide,
   (treeRow_parse_behavior "100644 blob abc my file.txt").1 "100644" "blob" "abc"
     ["my", "file.txt"] (by decide),
   by decide,
   (treeRow_parse_behavior "100644 blob").2 (by decide)⟩

/-- C2: the cached path of `cln` — resolving the hash to a tree via
`Tree::from_hash` and materializing it with the `Hash` walker — performs no
git subprocess call and reads the tree listing and all blob content from the
store alone: for every input, the completed-subprocess counter and the store
are unchanged in the resulting state, whatever the outcome. -/
theorem cachedPath_no_backend_calls (hash targetDir : String) (fuel : Nat) (st : St) :
    ((cachedPath hash targetDir fuel st).state).gitCalls = st.gitCalls
    ∧ ((cachedPath hash targetDir fuel st).state).store = st.store := by
  unfold cachedPath
  split
  next e s heq =>
    have hs : s = st := by
      have := treeFromHash_state hash "." st
      rw [heq] at this
      exact this
    rw [hs]
    exact ⟨rfl, rfl⟩
  next tree s heq =>
    have hs : s = st := by
      have := treeFromHash_state hash "." st
      rw [heq] at this
      exact this
    subst hs
    have h1 := hashWalk_preserves fuel tree targetDir (ensureDir s targetDir)
    have h2 := ensureDir_preserves s targetDir
    exact ⟨h1.1.trans h2.1, h1.2.trans h2.2⟩

/-- C3: the store is write-once.  When a hash is already a store key, a
second `TreeRow::write_to_store` against it — with a backend that would now
deliver different bytes — returns `Ok` without touching any state, and a
second `ls_tree` against it serves the cache and also leaves the state
untouched; in particular the first write's bytes remain intact. -/
theorem store_write_once (b : Backend) (row : TreeRow) (h p : String) (st : St)
    (e1 e2 : StoreEntry) (hw : lookupStore st.store row.name = some e1)
    (hr : lookupStore st.store h = some e2) :
    repoWriteToStore b row st = .ok () st ∧ (repoLsTree b h p st).state = st := by
  constructor
  · unfold repoWriteToStore
    rw [hw]
  · unfold repoLsTree
    rw [hr]
    dsimp only
    split <;> rfl

theorem store_write_once_witness :
    lookupStore wStore.store wRow.name = some ⟨"old-bytes", none⟩
    ∧ wBackend.catFile "h1" = some ⟨true, "DIFFERENT"⟩
    ∧ repoWriteToStore wBackend wRow wStore = .ok () wStore
    ∧ (repoLsTree wBackend "h1" "." wStore).state = wStore :=
  ⟨by decide, by decide,
   (store_write_once wBackend wRow "h1" "." wStore ⟨"old-bytes", none⟩
     ⟨"old-bytes", none⟩ (by decide) (by decide)).1,
   (store_write_once wBackend wRow "h1" "." wStore ⟨"old-bytes", none⟩
     ⟨"old-bytes", none⟩ (by decide) (by decide)).2⟩

/-- C4: materializing is idempotent for both walker instances — if a walk of
a listing into a target directory succeeded, running the same walk again
from the resulting filesystem state succeeds and returns that state
unchanged: no file is rewritten and every file already present at a target
path is left untouched. -/
theorem walk_idempotent (b : Backend) (fuel : Nat) (tree : Tree)
    (targetPath : String) (st st1 : St) :
    (hashWalk fuel tree targetPath st = .ok () st1 →
      hashWalk fuel tree targetPath st1 = .ok () st1)
    ∧ (repoWalk b fuel tree targetPath st = .ok () st1 →
      repoWalk b fuel tree targetPath st1 = .ok () st1) := by
  constructor
  · intro h
    exact walkWith_idem hashWriteBlob treeFromHash
      mono_hashWriteBlob mono_treeFromHash
      (fun tr r tp sa sb sc ha hb => hashWriteBlob_idem tr r tp sa sb sc ha hb)
      (fun hh pp sa sb sc t ha hb => treeFromHash_idem hh pp sa sb sc t ha hb)
      fuel tree targetPath st st1 st1 h (Mono.rfl st1)
  · intro h
    exact walkWith_idem (repoWriteBlob b) (repoLsTree b)
      (mono_repoWriteBlob b) (mono_repoLsTree b)
      (fun tr r tp sa sb sc ha hb => repoWriteBlob_idem b tr r tp sa sb sc ha hb)
      (fun hh pp sa sb sc t ha hb => repoLsTree_idem b hh pp sa sb sc t ha hb)
      fuel tree targetPath st st1 st1 h (Mono.rfl st1)

theorem walk_idempotent_witness :
    hashWalk 1 idemTree "td" idemStore = .ok () idemSt1
    ∧ hashWalk 1 idemTree "td" idemSt1 = .ok () idemSt1
    ∧ repoWalk noBackend 1 idemTree "td" idemStore = .ok () idemSt1
    ∧ repoWalk noBackend 1 idemTree "td" idemSt1 = .ok () idemSt1 :=
  ⟨by decide,
   (walk_idempotent noBackend 1 idemTree "td" idemStore idemSt1).1 (by decide),
   by decide,
   (walk_idempotent noBackend 1 idemTree "td" idemStore idemSt1).2 (by decide)⟩

/-- C5 (evaluation of the defect): `TreeRow::write_to_store` parses the mode
string with `str::parse`, which is base-10.  For the ordinary regular-file
mode string "100644" the decimal parse yields 100644, while the base-8
interpretation the spec requires is 33188 (octal 100644); the permission
value recorded for the stored blob is therefore 100644, and the two differ
even in the low twelve bits chmod honours (2340 = octal 4444, i.e. setuid +
r--r--r--, versus 420 = octal 644). -/
theorem mode_parse_decimal_not_octal :
    parseModeDecimal "100644" = some 100644
    ∧ specModeOctal "100644" = some 33188
    ∧ repoWriteToStore bMode rowMode stEmpty
        = .ok () ⟨[("abc", ⟨"bytes", some 100644⟩)], [], [], 1⟩
    ∧ applyReadonly 100644 = 100644
    ∧ (100644 : Nat) % 4096 = 2340
    ∧ (33188 : Nat) % 4096 = 420 := by
  decide

/-- C6 (evaluation of the defect): when the backend subprocess exits
non-zero, neither `TreeRow::write_to_store` nor `ls_tree` fails — both read
the subprocess's stdout without checking the exit status.  With a backend
whose `cat-file`/`ls-tree` exit non-zero with empty stdout, the blob write
returns `Ok` and persists the empty stdout into the store under the blob's
hash, and the tree listing call returns an empty tree while persisting the
empty text under the tree's hash. -/
theorem backend_exit_status_ignored :
    bFail.catFile "abc" = some ⟨false, ""⟩
    ∧ repoWriteToStore bFail rowMode stEmpty
        = .ok () ⟨[("abc", ⟨"", some 100644⟩)], [], [], 1⟩
    ∧ bFail.lsTree "dead" = some ⟨false, ""⟩
    ∧ repoLsTree bFail "dead" "." stEmpty
        = .ok ⟨[], "."⟩ ⟨[("dead", ⟨"", none⟩)], [], [], 1⟩ := by
  decide

/-- C9 counterexample: a fetch-path run in which clone, tree listing and
materialization all succeed and only the final discard of the ephemeral
workspace fails.  `cln` then returns the `TempDirCloseError` — the checkout
is reported as failed, not as otherwise successful — although the
already-materialized output (the hard-linked `td/./f.txt`) is all in place
in the final state. -/
theorem cleanup_failure_fatal_cex :
    clnModel cleanupFailEnv stEmpty = .fail (.err .TempDirCloseError) cleanupFailSt
    ∧ hasKey cleanupFailSt.files "td/./f.txt" = true
    ∧ ¬(R.fail (.err .TempDirCloseError) cleanupFailSt : R Unit)
        = .ok () cleanupFailSt := by
  refine ⟨by decide, by decide, fun h => R.noConfusion h⟩

/-- C9 (amended): on the fetch path a failure to discard the ephemeral
workspace after a successful materialization is fatal to the reported
result — `cln` propagates it as `TempDirCloseError` instead of reporting
success — but nothing is reverted: the returned state is exactly the
post-materialization state, with every materialized file intact. -/
theorem cleanup_failure_propagates (env : Env) (hash : String) (st sA sB : St)
    (tree : Tree)
    (h1 : env.tempDirOk = true) (h2 : env.cloneOk = true)
    (h3 : repoLsTree env.backend hash "." (bumpGit st) = .ok tree sA)
    (h4 : repoWalk env.backend env.fuel tree env.targetDir
      (ensureDir sA env.targetDir) = .ok () sB)
    (h5 : env.cleanupOk = false) :
    fetchPath env hash st = .fail (.err .TempDirCloseError) sB := by
  unfold fetchPath
  rw [h1, h2]
  simp only [Bool.not_true, Bool.false_eq_true, if_false]
  rw [h3]
  dsimp only
  rw [h4]
  dsimp only
  rw [h5]
  rfl

theorem cleanup_failure_propagates_witness :
    cleanupFailEnv.cleanupOk = false
    ∧ repoWalk cleanupFailEnv.backend cleanupFailEnv.fuel fetchedTree
        cleanupFailEnv.targetDir (ensureDir fetchedSA cleanupFailEnv.targetDir)
        = .ok () fetchedSB
    ∧ fetchPath cleanupFailEnv "aaaa" stEmpty
        = .fail (.err .TempDirCloseError) fetchedSB :=
  ⟨rfl, by decide,
   cleanup_failure_propagates cleanupFailEnv "aaaa" stEmpty fetchedSA fetchedSB
     fetchedTree rfl rfl (by decide) (by decide) rfl⟩

/-- C10: the cached fast path assumes the store is transitively complete.
If every blob hash of the current listing is in the store but the listing's
first subtree hash is not, the `Hash` walker fails with `ReadTreeError` (the
read of the missing store file), and it never falls back to a backend fetch
for the missing subtree: the completed-subprocess counter and the store are
unchanged in the failure state. -/
theorem cached_walk_missing_subtree (fuel : Nat) (tree : Tree) (targetPath : String)
    (st : St) (r : TreeRow) (rs : List TreeRow)
    (hblobs : ∀ x ∈ blobRows tree, (lookupStore st.store x.name).isSome = true)
    (htrees : treeRows tree = r :: rs)
    (hmiss : lookupStore st.store r.name = none) :
    (hashWalk (fuel + 1) tree targetPath st).isFailWith (.err .ReadTreeError) = true
    ∧ ((hashWalk (fuel + 1) tree targetPath st).state).gitCalls = st.gitCalls
    ∧ ((hashWalk (fuel + 1) tree targetPath st).state).store = st.store := by
  obtain ⟨s, hs, hst, hg⟩ := foldHashBlobs_ok tree targetPath (blobRows tree) st hblobs
  have hfrom : treeFromHash r.name (pathJoin tree.path r.path) s
      = .fail (.err .ReadTreeError) s := by
    unfold treeFromHash
    rw [hst, hmiss]
  have hwalk : hashWalk (fuel + 1) tree targetPath st
      = .fail (.err .ReadTreeError) s := by
    show walkWith hashWriteBlob treeFromHash (fuel + 1) tree targetPath st = _
    simp only [walkWith]
    rw [hs]
    dsimp only
    rw [htrees]
    simp only [walkTreesWith]
    rw [hfrom]
  rw [hwalk]
  refine ⟨?_, hg, hst⟩
  simp [R.isFailWith]

theorem cached_walk_missing_subtree_witness :
    blobRows missTree = []
    ∧ treeRows missTree = [missRow]
    ∧ lookupStore missSt.store "missing" = none
    ∧ (hashWalk 1 missTree "td" missSt).isFailWith (.err .ReadTreeError) = true
    ∧ ((hashWalk 1 missTree "td" missSt).state).gitCalls = missSt.gitCalls
    ∧ ((hashWalk 1 missTree "td" missSt).state).store = missSt.store :=
  ⟨by decide, by decide, by decide,
   (cached_walk_missing_subtree 0 missTree "td" missSt missRow []
     (by decide) (by decide) (by decide)).1,
   (cached_walk_missing_subtree 0 missTree "td" missSt missRow []
     (by decide) (by decide) (by decide)).2.1,
   (cached_walk_missing_subtree 0 missTree "td" missSt missRow []
     (by decide) (by decide) (by decide)).2.2⟩

end Cln
